import Mathlib

/-!
Verification of the `aus-nem-price-analyzer` repository.

This file gives a shallow embedding, in Lean 4, of the core of the
repository: the CSV normalisation pipeline (`data_loader.py`), the
analysis functions (`analysis.py`) and the battery arbitrage simulator
(`battery_strategy.py`), together with theorems settling the claims of
the specification against that embedding.

Modelling conventions (documented once here):
* Machine floats are modelled by exact rationals `ℚ`; the square root
  taken by `pandas.Series.std` is modelled with `Real.sqrt` on top of a
  rationally-computed variance.
* Timestamps are modelled by `ℤ` (seconds).  A pandas datetime series is
  a list of optional values (missing = `NaT`) together with an optional
  series-level timezone, modelled as a fixed UTC offset in seconds; for a
  zone-aware series the stored values are UTC instants, for a naive
  series they are wall-clock readings, mirroring the internal int64
  representation pandas uses for fixed-offset zones.
* CSV cell contents are classified by an inductive `Cell`
  (missing / text / numeric / datetime with optional zone): the actual
  text-parsing grammars of `pandas.to_datetime` / `pandas.to_numeric`
  are abstracted into the constructor, so `Cell.num q` stands for a cell
  that parses as the number `q`, and `Cell.dt v tz` for a cell that
  parses as a datetime.  Sources whose timestamp cells mix distinct
  zones (which pandas turns into an `object` column) are modelled as
  parsing to a naive series.
* `pandas.sort_values` is modelled by a stable insertion sort; the
  tie-breaking order of the default pandas quicksort is unspecified, the
  stable order is one refinement of it.
-/

section
/- The Batteries rational-number operations are irreducible by default;
the concrete evaluations below need them to reduce. -/
attribute [local semireducible] Rat.add Rat.sub Rat.mul Rat.inv

/-! ## Generic list helpers (stable sort by key, pandas median and quantile) -/

/-- Stable insertion of `a` into `l`, placing `a` after all elements whose
key is `≤ key a`. -/
def insertByKey {α β : Type} [LinearOrder β] (key : α → β) (a : α) : List α → List α
  | [] => [a]
  | x :: xs => if key x ≤ key a then x :: insertByKey key a xs else a :: x :: xs

/-- Stable sort by a key, modelling `pandas.sort_values(ascending=True)`. -/
def sortByKey {α β : Type} [LinearOrder β] (key : α → β) (l : List α) : List α :=
  l.foldl (fun acc x => insertByKey key x acc) []





/-- `pandas.Series.median`: middle element of the sorted values for odd
length, mean of the two middle elements for even length (`0` on an empty
list, a case callers guard against). -/
def medianQ (l : List ℚ) : ℚ :=
  let s := sortByKey id l
  let n := s.length
  if n = 0 then 0
  else if n % 2 = 1 then s.getD (n / 2) 0
  else (s.getD (n / 2 - 1) 0 + s.getD (n / 2) 0) / 2

/-- `pandas.Series.quantile` with the default linear interpolation:
with sorted values `x₀ … x_{n−1}` and `h = (n−1)·q`, the result is
`x_⌊h⌋ + (h − ⌊h⌋)·(x_{⌊h⌋+1} − x_⌊h⌋)`. -/
def quantileQ (l : List ℚ) (q : ℚ) : ℚ :=
  let s := sortByKey id l
  let n := s.length
  if n = 0 then 0
  else
    let h : ℚ := ((n : ℚ) - 1) * q
    let i : ℕ := h.floor.toNat
    let lo := s.getD i 0
    let hi := s.getD (i + 1) 0
    lo + (h - (i : ℚ)) * (hi - lo)


/-! ## Data model: canonical rows and tables -/

/-- One row of a canonical (normalised) table: `timestamp` is the stored
int64 value of the pandas timestamp, `demand` is per-row optional. -/
structure CRow where
  ts : ℤ
  region : String
  price : ℚ
  demand : Option ℚ
deriving Repr, DecidableEq

/-- A canonical table: the timezone attribute of its timestamp series
(`none` = zone-naive), whether a demand column is present, and the rows. -/
structure Table where
  tz : Option ℤ
  hasDemand : Bool
  rows : List CRow
deriving Repr, DecidableEq

/-- The error kinds raised by the repository (all raised as
`DataValidationError` in Python, distinguished here by their messages). -/
inductive DataError where
  | emptyData
  | missingColumn (role : String)
  | overrideNotFound (role override : String)
  | invalidTimestamp
  | invalidPrice
  | invalidRegion
  | noSources
  | mixedTimezones
  | missingCriterion
  | invalidQuantile
  | invalidEfficiency
  | invalidQuantiles
deriving Repr, DecidableEq

/-- Structural decidable equality for outcomes, so concrete runs can be
checked by evaluation. -/
instance {e a : Type} [DecidableEq e] [DecidableEq a] : DecidableEq (Except e a) :=
  fun x y =>
    match x, y with
    | .ok u, .ok v =>
        if h : u = v then isTrue (by rw [h]) else isFalse (by intro hc; cases hc; exact h rfl)
    | .error u, .error v =>
        if h : u = v then isTrue (by rw [h]) else isFalse (by intro hc; cases hc; exact h rfl)
    | .ok _, .error _ => isFalse (by intro hc; cases hc)
    | .error _, .ok _ => isFalse (by intro hc; cases hc)

/-! ## CSV loading (`data_loader.py`) -/

/-- A raw CSV cell, classified by what it parses as (see the header
comment for the modelling conventions). -/
inductive Cell where
  | na
  | text (s : String)
  | num (q : ℚ)
  | dt (v : ℤ) (tz : Option ℤ)
deriving Repr, DecidableEq

/-- A raw source: a header row plus rows of cells, positionally aligned
with the headers. -/
structure RawSource where
  headers : List String
  rows : List (List Cell)
deriving Repr, DecidableEq

/-- `LoadOptions`: overrides as an association list (role → literal source
header) and an optional timezone (a fixed UTC offset in seconds; `None`
and the empty string are both falsy in the source, modelled as `none`). -/
structure LoadOptions where
  columnOverrides : Option (List (String × String)) := none
  timezone : Option ℤ := some 0
deriving Repr, DecidableEq

/-- `DEFAULT_ALIASES`: fixed, ordered alias lists per canonical role. -/
def defaultAliases : String → List String
  | "timestamp" => ["timestamp", "datetime", "settlementdate", "trading_interval"]
  | "region" => ["region", "regionid"]
  | "price" => ["price", "rrp"]
  | "demand" => ["demand", "totaldemand", "total_demand", "demandmw"]
  | _ => []

/-- The Python `str.lower` applied to a header, character by character
(an evaluation-friendly equivalent of the library `toLower`). -/
def lowerStr (s : String) : String :=
  ⟨s.data.map Char.toLower⟩

/-- The dict comprehension `{c.lower(): c for c in columns}`: for a given
lowercase key, the *last* column with that lowercase form wins. -/
def normLookup (columns : List String) (k : String) : Option String :=
  columns.foldl (fun acc c => if lowerStr c = k then some c else acc) none

/-- Scan an ordered alias list, returning the header matched by the first
alias present (case-insensitively) among the columns. -/
def aliasScan (columns : List String) : List String → Option String
  | [] => none
  | a :: rest =>
      match normLookup columns a with
      | some c => some c
      | none => aliasScan columns rest

/-- `_resolve_column`.  The Python line `if overrides and target in overrides`
is truthiness on the dict, so an empty or absent overrides mapping falls
through to the alias scan; the association-list lookup models dict
access. -/
def resolveColumn (columns : List String) (target : String)
    (overrides : Option (List (String × String))) : Except DataError (Option String) :=
  match (overrides.getD []).lookup target with
  | some ov =>
      if ov ∈ columns then .ok (some ov)
      else .error (.overrideNotFound target ov)
  | none => .ok (aliasScan columns (defaultAliases target))

/-- The cells of the column under a given header (first matching header
position; cells missing at the end of a short row read as `na`). -/
def columnCells (src : RawSource) (header : String) : List Cell :=
  match src.headers.indexOf? header with
  | none => []
  | some i => src.rows.map (fun r => r.getD i .na)

/-- `pd.to_datetime(·, errors="coerce")` on one cell. -/
def parseDt : Cell → Option (ℤ × Option ℤ)
  | .dt v tz => some (v, tz)
  | _ => none

/-- `pd.to_numeric(·, errors="coerce")` on one cell. -/
def toNumeric : Cell → Option ℚ
  | .num q => some q
  | _ => none

/-- A region cell as read by `pd.read_csv`: text stays text, numbers
print as text, missing stays missing. -/
def toRegion : Cell → Option String
  | .text s => some s
  | .num q => some (toString q)
  | _ => none

/-- The series-level timezone `pd.to_datetime` attaches to a column: the
common zone when every parsed cell is zone-aware with the same offset
(missing cells are zone-agnostic), and `none` (naive) otherwise. -/
def uniformTz (parsed : List (Option (ℤ × Option ℤ))) : Option ℤ :=
  match (parsed.filterMap id).map Prod.snd with
  | [] => none
  | z0 :: rest =>
      match z0 with
      | none => none
      | some z => if rest.all (· = some z) then some z else none

/-- `pd.to_datetime` over a whole column: optional values plus the
series-level timezone. -/
def toDatetimeSeries (cells : List Cell) : Option ℤ × List (Option ℤ) :=
  let parsed := cells.map parseDt
  (uniformTz parsed, parsed.map (Option.map Prod.fst))

/-- The timezone block of `load_csv`: when `options.timezone` is set,
localize a naive series to it (wall readings become UTC instants) or
convert an aware series (instants unchanged); when unset, do nothing. -/
def applyTimezone (optTz : Option ℤ) (tz : Option ℤ) (vals : List (Option ℤ)) :
    Option ℤ × List (Option ℤ) :=
  match optTz with
  | none => (tz, vals)
  | some z =>
      match tz with
      | none => (some z, vals.map (Option.map (fun v => v - z)))
      | some _ => (some z, vals)

/-- Resolve the three required roles in source order (timestamp, region,
price), failing on a missing override or an unresolvable role. -/
def resolveRequired (src : RawSource) (opts : LoadOptions) :
    Except DataError (String × String × String) :=
  match resolveColumn src.headers "timestamp" opts.columnOverrides with
  | .error e => .error e
  | .ok none => .error (.missingColumn "timestamp")
  | .ok (some tsH) =>
      match resolveColumn src.headers "region" opts.columnOverrides with
      | .error e => .error e
      | .ok none => .error (.missingColumn "region")
      | .ok (some regH) =>
          match resolveColumn src.headers "price" opts.columnOverrides with
          | .error e => .error e
          | .ok none => .error (.missingColumn "price")
          | .ok (some prH) => .ok (tsH, regH, prH)

/-- Zip the coerced columns into canonical rows (callers have already
checked that no required value is missing, so defaults never matter). -/
def buildRows : List (Option ℤ) → List (Option String) → List (Option ℚ) →
    List (Option ℚ) → List CRow
  | tv :: ts, rv :: rs, pv :: ps, dv :: ds =>
      ⟨tv.getD 0, rv.getD "", pv.getD 0, dv⟩ :: buildRows ts rs ps ds
  | tv :: ts, rv :: rs, pv :: ps, [] =>
      ⟨tv.getD 0, rv.getD "", pv.getD 0, none⟩ :: buildRows ts rs ps []
  | _, _, _, _ => []

/-- `load_csv` on an in-memory source (file reading and `pd.read_csv`
text parsing are the excluded ingestion boundary): empty check, column
resolution, timestamp coercion and timezone handling, numeric coercion,
required-field validation, chronological sort, canonical columns. -/
def loadCsv (src : RawSource) (opts : LoadOptions) : Except DataError Table :=
  if src.rows.isEmpty then .error .emptyData
  else
    match resolveRequired src opts with
    | .error e => .error e
    | .ok (tsH, regH, prH) =>
        match resolveColumn src.headers "demand" opts.columnOverrides with
        | .error e => .error e
        | .ok demH =>
            let parsed := toDatetimeSeries (columnCells src tsH)
            let tzRes := applyTimezone opts.timezone parsed.1 parsed.2
            let tsVals := tzRes.2
            let regionVals := (columnCells src regH).map toRegion
            let priceVals := (columnCells src prH).map toNumeric
            let demandVals :=
              match demH with
              | some dh => (columnCells src dh).map toNumeric
              | none => []
            if tsVals.any (·.isNone) then .error .invalidTimestamp
            else if priceVals.any (·.isNone) then .error .invalidPrice
            else if regionVals.any (·.isNone) then .error .invalidRegion
            else
              .ok ⟨tzRes.1, demH.isSome,
                sortByKey CRow.ts (buildRows tsVals regionVals priceVals demandVals)⟩

/-- `drop_duplicates(subset=["timestamp","region"], keep="first")`:
keep the first occurrence of each (timestamp, region) pair, preserving
order. -/
def dedupFirst (rows : List CRow) : List CRow :=
  go [] rows
where
  go (seen : List (ℤ × String)) : List CRow → List CRow
    | [] => []
    | r :: rs =>
        if (r.ts, r.region) ∈ seen then go seen rs
        else r :: go ((r.ts, r.region) :: seen) rs

/-- `load_csvs`: per-source load, concatenation in input order,
optional dedup, final chronological sort.  `pandas` raises a `TypeError`
only when the final sort compares a zone-aware with a zone-naive
timestamp, i.e. when the frames disagree in zone-awareness; that
exception is modelled by the `mixedTimezones` error.  Frames that are
all aware but with different fixed offsets concatenate to an `object`
column — comparisons between aware timestamps are legal and
instant-based, and the merged column no longer carries a single series
zone, modelled as an absent zone attribute over the stored instants;
frames with one common zone keep it. -/
def loadCsvs (sources : List RawSource) (opts : LoadOptions) (dropDuplicates : Bool) :
    Except DataError Table :=
  if sources.isEmpty then .error .noSources
  else
    match sources.mapM (fun s => loadCsv s opts) with
    | .error e => .error e
    | .ok tables =>
        match tables with
        | [] => .error .noSources
        | t0 :: rest =>
            if rest.all (fun t => t.tz.isSome = t0.tz.isSome) then
              let combined := (tables.map Table.rows).flatten
              let deduped := if dropDuplicates then dedupFirst combined else combined
              let tz := if rest.all (fun t => t.tz = t0.tz) then t0.tz else none
              .ok ⟨tz, tables.any Table.hasDemand, sortByKey CRow.ts deduped⟩
            else .error .mixedTimezones

/-! ## Analysis (`analysis.py`) -/

/-- The summary mapping built by `compute_summary`.  The standard
deviation is stored through its exact square `stdSq` (pandas stores
`sqrt stdSq` as a float); `stdPrice` and `coeffVar` below recover the
real-valued entries of the mapping. -/
structure Summary where
  count : ℚ
  meanPrice : ℚ
  medianPrice : ℚ
  minPrice : ℚ
  maxPrice : ℚ
  stdSq : ℚ
  meanDemand : Option ℚ
  maxDemand : Option ℚ
deriving Repr, DecidableEq

/-- Mean of a list of rationals (callers guard against emptiness). -/
def meanQ (l : List ℚ) : ℚ :=
  l.sum / l.length

/-- Minimum of a list (pandas `Series.min`; `0` on empty, guarded). -/
def minQ : List ℚ → ℚ
  | [] => 0
  | x :: xs => xs.foldl min x

/-- Maximum of a list (pandas `Series.max`; `0` on empty, guarded). -/
def maxQ : List ℚ → ℚ
  | [] => 0
  | x :: xs => xs.foldl max x

/-- Population variance (`Series.std(ddof=0)` squared): divisor is the
count, not count − 1. -/
def popVar (l : List ℚ) : ℚ :=
  (l.map (fun x => (x - meanQ l) ^ 2)).sum / l.length

/-- The `std_price` entry: the square root of the population variance. -/
noncomputable def stdPrice (s : Summary) : ℝ :=
  Real.sqrt (s.stdSq : ℝ)

/-- The `coeff_var` entry: present exactly when `mean_price` is truthy
(nonzero), with value std/mean. -/
noncomputable def coeffVar (s : Summary) : Option ℝ :=
  if s.meanPrice = 0 then none else some (stdPrice s / (s.meanPrice : ℝ))

/-- `compute_summary`: empty check, then count/mean/median/min/max and
population std of price, plus demand stats when a demand column exists
and has at least one non-missing value. -/
def computeSummary (t : Table) : Except DataError Summary :=
  if t.rows.isEmpty then .error .emptyData
  else
    let prices := t.rows.map CRow.price
    let demands := if t.hasDemand then t.rows.filterMap CRow.demand else []
    .ok
      { count := prices.length
        meanPrice := meanQ prices
        medianPrice := medianQ prices
        minPrice := minQ prices
        maxPrice := maxQ prices
        stdSq := popVar prices
        meanDemand := if demands.isEmpty then none else some (meanQ demands)
        maxDemand := if demands.isEmpty then none else some (maxQ demands) }

/-- The stats mapping returned by `detect_spikes`. -/
structure SpikeStats where
  cutoff : ℚ
  spikeCount : ℚ
  maxSpike : Option ℚ
  meanSpike : Option ℚ
deriving Repr, DecidableEq

/-- The rows meeting or exceeding the cutoff, in original relative
order (`df[df["price"] >= cutoff]`). -/
def spikeEvents (t : Table) (cutoff : ℚ) : List CRow :=
  t.rows.filter (fun r => cutoff ≤ r.price)

/-- The stats mapping of `detect_spikes` for a given cutoff: the cutoff,
the event count, and max/mean of the event prices when events exist. -/
def spikeStatsOf (t : Table) (cutoff : ℚ) : SpikeStats :=
  { cutoff := cutoff
    spikeCount := (spikeEvents t cutoff).length
    maxSpike :=
      if (spikeEvents t cutoff).isEmpty then none
      else some (maxQ ((spikeEvents t cutoff).map CRow.price))
    meanSpike :=
      if (spikeEvents t cutoff).isEmpty then none
      else some (meanQ ((spikeEvents t cutoff).map CRow.price)) }

/-- `detect_spikes`: empty check, criterion check, cutoff from the
threshold or (only when the threshold is absent) from the validated
quantile, then the rows with price ≥ cutoff in original order. -/
def detectSpikes (t : Table) (threshold quantile : Option ℚ) :
    Except DataError (List CRow × SpikeStats) :=
  if t.rows.isEmpty then .error .emptyData
  else if threshold = none ∧ quantile = none then .error .missingCriterion
  else
    let cutoffE : Except DataError ℚ :=
      match threshold with
      | some c => .ok c
      | none =>
          match quantile with
          | none => .error .invalidQuantile
          | some q =>
              if ¬(0 ≤ q ∧ q ≤ 1) then .error .invalidQuantile
              else .ok (quantileQ (t.rows.map CRow.price) q)
    match cutoffE with
    | .error e => .error e
    | .ok cutoff => .ok (spikeEvents t cutoff, spikeStatsOf t cutoff)

/-! ## Battery simulator (`battery_strategy.py`) -/

/-- The mutable per-run state of the `battery_backtest` loop. -/
structure BState where
  soc : ℚ
  cost : ℚ
  revenue : ℚ
  chargeEvents : ℕ
  dischargeEvents : ℕ
  energyFromGrid : ℚ
  energyToGrid : ℚ
deriving Repr, DecidableEq

/-- Initial state: everything zero. -/
def initBState : BState :=
  ⟨0, 0, 0, 0, 0, 0, 0⟩

/-- The result record returned by `battery_backtest`. -/
structure BatteryResult where
  totalProfit : ℚ
  chargeEvents : ℕ
  dischargeEvents : ℕ
  cycles : ℕ
  energyFromGridMwh : ℚ
  energyToGridMwh : ℚ
  lowThreshold : ℚ
  highThreshold : ℚ
  intervalHours : ℚ
deriving Repr, DecidableEq

/-- The charge check of the loop body: charge when the price is in the
low bucket and capacity remains, bounded by power limit and remaining
space (`maxEnergyIn` is `power_mw * interval_hours`). -/
def chargePhase (lowThr cap maxEnergyIn : ℚ) (s : BState) (price : ℚ) : BState :=
  if price ≤ lowThr ∧ s.soc < cap then
    if 0 < min maxEnergyIn (cap - s.soc) then
      { s with
        soc := s.soc + min maxEnergyIn (cap - s.soc)
        cost := s.cost + price * min maxEnergyIn (cap - s.soc)
        energyFromGrid := s.energyFromGrid + min maxEnergyIn (cap - s.soc)
        chargeEvents := s.chargeEvents + 1 }
    else s
  else s

/-- The discharge check of the loop body: discharge when the price is in
the high bucket and energy is available, applying the round-trip
efficiency to the delivered energy only. -/
def dischargePhase (highThr maxEnergyOut eff : ℚ) (s : BState) (price : ℚ) : BState :=
  if highThr ≤ price ∧ 0 < s.soc then
    if 0 < min maxEnergyOut s.soc then
      { s with
        soc := s.soc - min maxEnergyOut s.soc
        revenue := s.revenue + price * (min maxEnergyOut s.soc * eff)
        energyToGrid := s.energyToGrid + min maxEnergyOut s.soc * eff
        dischargeEvents := s.dischargeEvents + 1 }
    else s
  else s

/-- One iteration of the `for price in prices` loop of `battery_backtest`:
the charge check, then the discharge check on the updated state. -/
def batteryStep (lowThr highThr intervalHours eff cap pow : ℚ)
    (s : BState) (price : ℚ) : BState :=
  dischargePhase highThr (pow * intervalHours) eff
    (chargePhase lowThr cap (pow * intervalHours) s price) price

/-- Successive differences of a list (the non-NaN part of
`Series.diff()`). -/
def diffs : List ℤ → List ℚ
  | [] => []
  | [_] => []
  | a :: b :: rest => ((b - a : ℤ) : ℚ) :: diffs (b :: rest)

/-- `_estimate_interval_hours`: median gap (in hours) between sorted
timestamps; `1.0` when there are no gaps or the median gap is zero
(Python float truthiness). -/
def estimateIntervalHours (tss : List ℤ) : ℚ :=
  let deltas := diffs (sortByKey id tss)
  if deltas.isEmpty then 1
  else
    let medianSeconds := medianQ deltas
    if medianSeconds = 0 then 1 else medianSeconds / 3600

/-- Assemble the `BatteryResult` from a final loop state. -/
def finalizeBattery (lowThr highThr intervalHours : ℚ) (s : BState) : BatteryResult :=
  { totalProfit := s.revenue - s.cost
    chargeEvents := s.chargeEvents
    dischargeEvents := s.dischargeEvents
    cycles := min s.chargeEvents s.dischargeEvents
    energyFromGridMwh := s.energyFromGrid
    energyToGridMwh := s.energyToGrid
    lowThreshold := lowThr
    highThreshold := highThr
    intervalHours := intervalHours }

/-- `sorted_df`: the rows of the table, stably sorted by timestamp. -/
def batterySortedRows (t : Table) : List CRow :=
  sortByKey CRow.ts t.rows

/-- `prices`: the price series of the timestamp-sorted table. -/
def batteryPrices (t : Table) : List ℚ :=
  (batterySortedRows t).map CRow.price

/-- `low_thr` / `high_thr`: a quantile of the price series. -/
def batteryThr (t : Table) (q : ℚ) : ℚ :=
  quantileQ (batteryPrices t) q

/-- The interval length inferred from the timestamps of the sorted table. -/
def batteryIntervalHours (t : Table) : ℚ :=
  estimateIntervalHours ((batterySortedRows t).map CRow.ts)

/-- `battery_backtest`: validation, quantile thresholds over the
timestamp-sorted price series, then the sequential charge/discharge loop. -/
def batteryBacktest (t : Table) (lowQuantile highQuantile eff cap pow : ℚ) :
    Except DataError BatteryResult :=
  if t.rows.isEmpty then .error .emptyData
  else if ¬(0 < eff ∧ eff ≤ 1) then .error .invalidEfficiency
  else if ¬(0 ≤ lowQuantile ∧ lowQuantile < highQuantile ∧ highQuantile ≤ 1) then
    .error .invalidQuantiles
  else
    let lowThr := batteryThr t lowQuantile
    let highThr := batteryThr t highQuantile
    let intervalHours := batteryIntervalHours t
    let final :=
      (batteryPrices t).foldl (batteryStep lowThr highThr intervalHours eff cap pow) initBState
    .ok (finalizeBattery lowThr highThr intervalHours final)

/-- The sequence of loop states of `battery_backtest` (initial state
included), one per processed row. -/
def batteryTrajectory (t : Table) (lowQuantile highQuantile eff cap pow : ℚ) : List BState :=
  List.scanl
    (batteryStep (batteryThr t lowQuantile) (batteryThr t highQuantile)
      (batteryIntervalHours t) eff cap pow)
    initBState (batteryPrices t)

/-- The total profit of a backtest outcome (`0` for an error outcome). -/
def profitOf : Except DataError BatteryResult → ℚ
  | .ok r => r.totalProfit
  | .error _ => 0

/-! ## Spec-side definitions

The following definitions restate, word for word, behaviour the
specification describes; theorems below compare them with the
definitions translated from the source. -/

/-- The charge check as the specification words it: if
`price ≤ low_threshold` and `state_of_charge < capacity`, add
`min(power × interval_hours, capacity − state_of_charge)` to the state
of charge with no loss, add `price × amount` to the cost and the amount
to energy-from-grid, and increment the charge-event count. -/
def specChargeCheck (lowThr cap maxEnergyIn : ℚ) (s : BState) (price : ℚ) : BState :=
  if price ≤ lowThr ∧ s.soc < cap then
    { s with
      soc := s.soc + min maxEnergyIn (cap - s.soc)
      cost := s.cost + price * min maxEnergyIn (cap - s.soc)
      energyFromGrid := s.energyFromGrid + min maxEnergyIn (cap - s.soc)
      chargeEvents := s.chargeEvents + 1 }
  else s

/-- The discharge check as the specification words it: if
`price ≥ high_threshold` and `state_of_charge > 0`, subtract the full
amount `min(power × interval_hours, state_of_charge)` from the state of
charge but credit only `amount × round_trip_efficiency` to revenue (at
the row price) and to energy-to-grid, and increment the discharge-event
count. -/
def specDischargeCheck (highThr maxEnergyOut eff : ℚ) (s : BState) (price : ℚ) : BState :=
  if highThr ≤ price ∧ 0 < s.soc then
    { s with
      soc := s.soc - min maxEnergyOut s.soc
      revenue := s.revenue + price * (min maxEnergyOut s.soc * eff)
      energyToGrid := s.energyToGrid + min maxEnergyOut s.soc * eff
      dischargeEvents := s.dischargeEvents + 1 }
  else s

/-- Alias scanning as the specification words it: the first alias in the
ordered list that matches any header case-insensitively decides the
resolved header. -/
def specFirstAliasMatch (columns : List String) (aliases : List String) : Option String :=
  match aliases.find? (fun a => columns.any (fun c => lowerStr c = a)) with
  | some a => normLookup columns a
  | none => none

/-- The series-level timezone the timestamp column of a source parses to,
before any timezone option is applied (`none` when the required columns
do not resolve, a case the theorems exclude). -/
def parsedSeriesTz (src : RawSource) (opts : LoadOptions) : Option ℤ :=
  match resolveRequired src opts with
  | .ok (tsH, _, _) => (toDatetimeSeries (columnCells src tsH)).1
  | .error _ => none

/-! ## Scalar decomposition of the battery loop

The loop state components can be written as scalar recursions over the
price list that depend only on the initial state of charge; the
efficiency enters the revenue and energy-to-grid components as a single
multiplicative factor.  These definitions support the monotonicity and
invariant theorems. -/

/-- The energy the charge check moves for a given state of charge and
price (`0` when the check does not fire). -/
def chargeAmt (lowThr cap maxEnergyIn : ℚ) (soc price : ℚ) : ℚ :=
  if price ≤ lowThr ∧ soc < cap ∧ 0 < min maxEnergyIn (cap - soc) then
    min maxEnergyIn (cap - soc)
  else 0

/-- The energy the discharge check removes for a given state of charge
and price (`0` when the check does not fire). -/
def disAmt (highThr maxEnergyOut : ℚ) (soc price : ℚ) : ℚ :=
  if highThr ≤ price ∧ 0 < soc ∧ 0 < min maxEnergyOut soc then
    min maxEnergyOut soc
  else 0

/-- The state of charge after one loop iteration, as a scalar function. -/
def socStep1 (lowThr highThr cap maxIn maxOut : ℚ) (soc price : ℚ) : ℚ :=
  soc + chargeAmt lowThr cap maxIn soc price
    - disAmt highThr maxOut (soc + chargeAmt lowThr cap maxIn soc price) price

/-- The state of charge after a run over a price list. -/
def socRun (lowThr highThr cap maxIn maxOut : ℚ) : List ℚ → ℚ → ℚ
  | [], soc => soc
  | p :: ps, soc =>
      socRun lowThr highThr cap maxIn maxOut ps (socStep1 lowThr highThr cap maxIn maxOut soc p)

/-- The accumulated charging cost of a run (efficiency-independent). -/
def costRun (lowThr highThr cap maxIn maxOut : ℚ) : List ℚ → ℚ → ℚ
  | [], _ => 0
  | p :: ps, soc =>
      p * chargeAmt lowThr cap maxIn soc p
        + costRun lowThr highThr cap maxIn maxOut ps (socStep1 lowThr highThr cap maxIn maxOut soc p)

/-- The accumulated discharge revenue of a run at efficiency `1`; at
efficiency `e` the revenue is `e` times this. -/
def revRun (lowThr highThr cap maxIn maxOut : ℚ) : List ℚ → ℚ → ℚ
  | [], _ => 0
  | p :: ps, soc =>
      p * disAmt highThr maxOut (soc + chargeAmt lowThr cap maxIn soc p) p
        + revRun lowThr highThr cap maxIn maxOut ps (socStep1 lowThr highThr cap maxIn maxOut soc p)

/-! ## Concrete tables and sources used by witnesses and counterexamples -/

/-- Four hourly prices, the worked example of the specification. -/
def tableFourPrices : Table :=
  ⟨some 0, false,
    [⟨0, "VIC1", 20, none⟩, ⟨3600, "VIC1", 100, none⟩,
     ⟨7200, "VIC1", 200, none⟩, ⟨10800, "VIC1", 50, none⟩]⟩

/-- Two hourly rows with negative prices (negative prices are legal NEM
prices and reach the discharge branch). -/
def tableNegativePrices : Table :=
  ⟨none, false, [⟨0, "VIC1", -10, none⟩, ⟨3600, "VIC1", -1, none⟩]⟩

/-- A two-region table with one clear spike. -/
def tableSpiky : Table :=
  ⟨some 0, true,
    [⟨0, "VIC1", 50, some 1000⟩, ⟨3600, "VIC1", 200, some 1200⟩,
     ⟨7200, "NSW1", 100, some 900⟩, ⟨10800, "NSW1", 400, some 1500⟩]⟩

/-- A single-row table. -/
def tableOneRow : Table :=
  ⟨some 0, false, [⟨0, "VIC1", 50, none⟩]⟩

/-- A zero-row table. -/
def tableEmpty : Table :=
  ⟨none, false, []⟩

/-- A source whose timestamp cells all carry the fixed offset +10:00
(36000 seconds). -/
def sourceAware : RawSource :=
  ⟨["timestamp", "region", "price"],
    [[.dt 0 (some 36000), .text "VIC1", .num 50],
     [.dt 3600 (some 36000), .text "VIC1", .num 60]]⟩

/-- A source whose timestamp cells all carry the fixed offset +05:00
(18000 seconds), zone-aware like `sourceAware` but with a different
offset. -/
def sourceAwareOther : RawSource :=
  ⟨["timestamp", "region", "price"],
    [[.dt 7200 (some 18000), .text "VIC1", .num 70]]⟩

/-- A source with zone-naive timestamp cells and aliased headers,
deliberately out of chronological order. -/
def sourceNaive : RawSource :=
  ⟨["SETTLEMENTDATE", "REGIONID", "RRP"],
    [[.dt 3600 none, .text "VIC1", .num 60],
     [.dt 0 none, .text "VIC1", .num 50]]⟩

/-- A second zone-naive source overlapping `sourceNaive` on one
(timestamp, region) pair. -/
def sourceNaiveOverlap : RawSource :=
  ⟨["timestamp", "region", "price"],
    [[.dt 3600 none, .text "VIC1", .num 99],
     [.dt 7200 none, .text "VIC1", .num 70]]⟩

/-! ## Helper theorems -/

theorem mem_insertByKey {α β : Type} [LinearOrder β] (key : α → β) (a y : α) :
    ∀ l : List α, y ∈ insertByKey key a l ↔ y = a ∨ y ∈ l := by
  intro l
  induction l with
  | nil => simp [insertByKey]
  | cons x xs ih =>
      by_cases h : key x ≤ key a
      · simp only [insertByKey, if_pos h, List.mem_cons, ih]
        try tauto
      · simp only [insertByKey, if_neg h, List.mem_cons]
        try tauto

theorem sorted_insertByKey {α β : Type} [LinearOrder β] (key : α → β) (a : α) :
    ∀ l : List α, l.Pairwise (fun x y => key x ≤ key y) →
      (insertByKey key a l).Pairwise (fun x y => key x ≤ key y) := by
  intro l
  induction l with
  | nil => simp [insertByKey]
  | cons x xs ih =>
      intro hs
      rcases List.pairwise_cons.mp hs with ⟨hx, hxs⟩
      by_cases h : key x ≤ key a
      · simp only [insertByKey, if_pos h]
        refine List.pairwise_cons.mpr ⟨?_, ih hxs⟩
        intro y hy
        rcases (mem_insertByKey key a y xs).mp hy with rfl | hy'
        · exact h
        · exact hx y hy'
      · simp only [insertByKey, if_neg h]
        refine List.pairwise_cons.mpr ⟨?_, hs⟩
        intro y hy
        rcases List.mem_cons.mp hy with rfl | hy'
        · exact le_of_not_le h
        · exact le_trans (le_of_not_le h) (hx y hy')

theorem sorted_sortByKey {α β : Type} [LinearOrder β] (key : α → β) (l : List α) :
    (sortByKey key l).Pairwise (fun x y => key x ≤ key y) := by
  have main : ∀ (l acc : List α), acc.Pairwise (fun x y => key x ≤ key y) →
      (l.foldl (fun acc x => insertByKey key x acc) acc).Pairwise
        (fun x y => key x ≤ key y) := by
    intro l
    induction l with
    | nil => intro acc h; simpa using h
    | cons x xs ih =>
        intro acc h
        exact ih _ (sorted_insertByKey key x acc h)
  exact main l [] (by simp)

theorem mem_sortByKey {α β : Type} [LinearOrder β] (key : α → β) (y : α) (l : List α) :
    y ∈ sortByKey key l ↔ y ∈ l := by
  have main : ∀ (l acc : List α),
      (y ∈ l.foldl (fun acc x => insertByKey key x acc) acc ↔ y ∈ acc ∨ y ∈ l) := by
    intro l
    induction l with
    | nil => intro acc; simp
    | cons x xs ih =>
        intro acc
        simp only [List.foldl_cons, ih, mem_insertByKey, List.mem_cons]
        tauto
  simpa using main l []

theorem medianQ_nonneg (l : List ℚ) (h : ∀ x ∈ l, 0 ≤ x) : 0 ≤ medianQ l := by
  have hmem : ∀ i : ℕ, 0 ≤ (sortByKey id l).getD i 0 := by
    intro i
    rcases Nat.lt_or_ge i (sortByKey id l).length with hi | hi
    · have : (sortByKey id l).getD i 0 ∈ sortByKey id l := by
        rw [List.getD_eq_getElem _ _ hi]
        exact List.getElem_mem _
      exact h _ ((mem_sortByKey id _ l).mp this)
    · rw [List.getD_eq_default _ _ hi]
  unfold medianQ
  dsimp only
  split
  · norm_num
  · split
    · exact hmem _
    · have h1 := hmem ((sortByKey id l).length / 2 - 1)
      have h2 := hmem ((sortByKey id l).length / 2)
      linarith

theorem diffs_nonneg :
    ∀ l : List ℤ, l.Pairwise (fun a b => a ≤ b) → ∀ x ∈ diffs l, 0 ≤ x := by
  intro l
  induction l with
  | nil => intro _ x hx; simp [diffs] at hx
  | cons a tail ih =>
      cases tail with
      | nil => intro _ x hx; simp [diffs] at hx
      | cons b rest =>
          intro hp x hx
          rcases List.pairwise_cons.mp hp with ⟨hab, htail⟩
          simp only [diffs, List.mem_cons] at hx
          rcases hx with rfl | hx
          · have hab2 : a ≤ b := hab b (by simp)
            have : (0 : ℤ) ≤ b - a := by linarith
            exact_mod_cast this
          · exact ih htail x hx

theorem estimateIntervalHours_pos (tss : List ℤ) : 0 < estimateIntervalHours tss := by
  have hsorted : (sortByKey id tss).Pairwise (fun a b => a ≤ b) := by
    simpa using sorted_sortByKey (id : ℤ → ℤ) tss
  have hnn : ∀ x ∈ diffs (sortByKey id tss), 0 ≤ x :=
    diffs_nonneg _ hsorted
  have hmed : 0 ≤ medianQ (diffs (sortByKey id tss)) := medianQ_nonneg _ hnn
  unfold estimateIntervalHours
  dsimp only
  split_ifs with h1 h2
  · norm_num
  · norm_num
  · have : 0 < medianQ (diffs (sortByKey id tss)) := lt_of_le_of_ne hmed (Ne.symm h2)
    positivity

theorem normLookup_none_iff (k : String) : ∀ (cols : List String) (acc : Option String),
    (cols.foldl (fun acc c => if lowerStr c = k then some c else acc) acc = none
      ↔ acc = none ∧ ∀ c ∈ cols, lowerStr c ≠ k) := by
  intro cols
  induction cols with
  | nil => intro acc; simp
  | cons c cs ih =>
      intro acc
      by_cases h : lowerStr c = k
      · simp only [List.foldl_cons, if_pos h, ih]
        constructor
        · rintro ⟨hsc, -⟩
          exact absurd hsc (by simp)
        · rintro ⟨-, hall⟩
          exact absurd h (hall c (by simp))
      · simp only [List.foldl_cons, if_neg h, ih, List.mem_cons]
        constructor
        · rintro ⟨ha, hall⟩
          refine ⟨ha, ?_⟩
          rintro x (rfl | hx)
          · exact h
          · exact hall x hx
        · rintro ⟨ha, hall⟩
          exact ⟨ha, fun x hx => hall x (Or.inr hx)⟩

theorem normLookup_eq_none_iff (cols : List String) (k : String) :
    normLookup cols k = none ↔ ∀ c ∈ cols, lowerStr c ≠ k := by
  unfold normLookup
  rw [normLookup_none_iff]
  simp

theorem aliasScan_eq_spec (cols : List String) :
    ∀ aliases : List String, aliasScan cols aliases = specFirstAliasMatch cols aliases := by
  intro aliases
  induction aliases with
  | nil => rfl
  | cons a rest ih =>
      by_cases h : ∃ c ∈ cols, lowerStr c = a
      · have hfind : cols.any (fun c => lowerStr c = a) = true := by
          rcases h with ⟨c, hc, hca⟩
          exact List.any_eq_true.mpr ⟨c, hc, by simp [hca]⟩
        have hnl : normLookup cols a ≠ none := by
          rw [Ne, normLookup_eq_none_iff]
          push_neg
          exact h
        rcases Option.ne_none_iff_exists.mp hnl with ⟨c, hc⟩
        unfold aliasScan specFirstAliasMatch
        rw [← hc]
        simp only [List.find?, hfind]
        exact hc
      · have hfind : cols.any (fun c => lowerStr c = a) = false := by
          rw [List.any_eq_false]
          intro c hc
          simp only [decide_eq_true_eq]
          intro hca
          exact h ⟨c, hc, hca⟩
        have hnl : normLookup cols a = none := by
          rw [normLookup_eq_none_iff]
          intro c hc hca
          exact h ⟨c, hc, hca⟩
        unfold aliasScan specFirstAliasMatch
        rw [hnl]
        simp only [List.find?, hfind]
        rw [ih]
        rfl

theorem chargePhase_eq (lowThr cap maxIn : ℚ) (s : BState) (p : ℚ) :
    chargePhase lowThr cap maxIn s p =
      { soc := s.soc + chargeAmt lowThr cap maxIn s.soc p
        cost := s.cost + p * chargeAmt lowThr cap maxIn s.soc p
        revenue := s.revenue
        chargeEvents :=
          s.chargeEvents + (if chargeAmt lowThr cap maxIn s.soc p = 0 then 0 else 1)
        dischargeEvents := s.dischargeEvents
        energyFromGrid := s.energyFromGrid + chargeAmt lowThr cap maxIn s.soc p
        energyToGrid := s.energyToGrid } := by
  unfold chargePhase chargeAmt
  rcases Decidable.em (p ≤ lowThr ∧ s.soc < cap) with h1 | h1
  · rcases Decidable.em (0 < min maxIn (cap - s.soc)) with h2 | h2
    · rw [if_pos h1, if_pos h2, if_pos ⟨h1.1, h1.2, h2⟩, if_neg (ne_of_gt h2)]
    · rw [if_pos h1, if_neg h2, if_neg (fun hc => h2 hc.2.2), if_pos rfl]
      simp
  · rw [if_neg h1, if_neg (fun hc => h1 ⟨hc.1, hc.2.1⟩), if_pos rfl]
    simp

theorem dischargePhase_eq (highThr maxOut eff : ℚ) (s : BState) (p : ℚ) :
    dischargePhase highThr maxOut eff s p =
      { soc := s.soc - disAmt highThr maxOut s.soc p
        cost := s.cost
        revenue := s.revenue + p * (disAmt highThr maxOut s.soc p * eff)
        chargeEvents := s.chargeEvents
        dischargeEvents :=
          s.dischargeEvents + (if disAmt highThr maxOut s.soc p = 0 then 0 else 1)
        energyFromGrid := s.energyFromGrid
        energyToGrid := s.energyToGrid + disAmt highThr maxOut s.soc p * eff } := by
  unfold dischargePhase disAmt
  rcases Decidable.em (highThr ≤ p ∧ 0 < s.soc) with h1 | h1
  · rcases Decidable.em (0 < min maxOut s.soc) with h2 | h2
    · rw [if_pos h1, if_pos h2, if_pos ⟨h1.1, h1.2, h2⟩, if_neg (ne_of_gt h2)]
    · rw [if_pos h1, if_neg h2, if_neg (fun hc => h2 hc.2.2), if_pos rfl]
      simp
  · rw [if_neg h1, if_neg (fun hc => h1 ⟨hc.1, hc.2.1⟩), if_pos rfl]
    simp

theorem batteryStep_eq (lowThr highThr ivh eff cap pow : ℚ) (s : BState) (p : ℚ) :
    batteryStep lowThr highThr ivh eff cap pow s p =
      { soc := socStep1 lowThr highThr cap (pow * ivh) (pow * ivh) s.soc p
        cost := s.cost + p * chargeAmt lowThr cap (pow * ivh) s.soc p
        revenue := s.revenue
          + p * (disAmt highThr (pow * ivh)
              (s.soc + chargeAmt lowThr cap (pow * ivh) s.soc p) p * eff)
        chargeEvents := s.chargeEvents
          + (if chargeAmt lowThr cap (pow * ivh) s.soc p = 0 then 0 else 1)
        dischargeEvents := s.dischargeEvents
          + (if disAmt highThr (pow * ivh)
              (s.soc + chargeAmt lowThr cap (pow * ivh) s.soc p) p = 0 then 0 else 1)
        energyFromGrid := s.energyFromGrid + chargeAmt lowThr cap (pow * ivh) s.soc p
        energyToGrid := s.energyToGrid
          + disAmt highThr (pow * ivh)
              (s.soc + chargeAmt lowThr cap (pow * ivh) s.soc p) p * eff } := by
  unfold batteryStep socStep1
  rw [chargePhase_eq, dischargePhase_eq]

theorem chargeAmt_nonneg (lowThr cap maxIn soc p : ℚ) :
    0 ≤ chargeAmt lowThr cap maxIn soc p := by
  unfold chargeAmt
  split_ifs with h
  · exact le_of_lt h.2.2
  · exact le_refl 0

theorem disAmt_nonneg (highThr maxOut soc p : ℚ) :
    0 ≤ disAmt highThr maxOut soc p := by
  unfold disAmt
  split_ifs with h
  · exact le_of_lt h.2.2
  · exact le_refl 0

theorem disAmt_le_soc (highThr maxOut soc p : ℚ) (h : 0 ≤ soc) :
    disAmt highThr maxOut soc p ≤ soc := by
  unfold disAmt
  split_ifs with h1
  · exact min_le_right _ _
  · exact h

theorem chargeAmt_le_cap (lowThr cap maxIn soc p : ℚ) (h : soc ≤ cap) :
    soc + chargeAmt lowThr cap maxIn soc p ≤ cap := by
  unfold chargeAmt
  split_ifs with h1
  · have := min_le_right maxIn (cap - soc)
    linarith
  · linarith

theorem foldl_invariant {α β : Type} (f : β → α → β) (P : β → Prop)
    (hf : ∀ b a, P b → P (f b a)) :
    ∀ (l : List α) (b : β), P b → P (l.foldl f b) := by
  intro l
  induction l with
  | nil => intro b hb; simpa using hb
  | cons a l ih => intro b hb; simpa using ih (f b a) (hf b a hb)

theorem scanl_invariant {α β : Type} (f : β → α → β) (P : β → Prop)
    (hf : ∀ b a, P b → P (f b a)) :
    ∀ (l : List α) (b : β), P b → ∀ x ∈ List.scanl f b l, P x := by
  intro l
  induction l with
  | nil =>
      intro b hb x hx
      simp only [List.scanl_nil, List.mem_singleton] at hx
      exact hx ▸ hb
  | cons a l ih =>
      intro b hb x hx
      simp only [List.scanl_cons, List.singleton_append, List.mem_cons] at hx
      rcases hx with rfl | hx
      · exact hb
      · exact ih (f b a) (hf b a hb) x hx

theorem batteryStep_preserves_bounds (lowThr highThr ivh eff cap pow : ℚ)
    (s : BState) (p : ℚ) (h : 0 ≤ s.soc ∧ s.soc ≤ cap) :
    0 ≤ (batteryStep lowThr highThr ivh eff cap pow s p).soc
      ∧ (batteryStep lowThr highThr ivh eff cap pow s p).soc ≤ cap := by
  rw [batteryStep_eq]
  dsimp only
  unfold socStep1
  have hc0 := chargeAmt_nonneg lowThr cap (pow * ivh) s.soc p
  have hmid0 : 0 ≤ s.soc + chargeAmt lowThr cap (pow * ivh) s.soc p := by linarith [h.1]
  have hmidc := chargeAmt_le_cap lowThr cap (pow * ivh) s.soc p h.2
  have hd0 := disAmt_nonneg highThr (pow * ivh)
    (s.soc + chargeAmt lowThr cap (pow * ivh) s.soc p) p
  have hdle := disAmt_le_soc highThr (pow * ivh)
    (s.soc + chargeAmt lowThr cap (pow * ivh) s.soc p) p hmid0
  constructor
  · linarith
  · linarith

theorem batteryStep_preserves_soc_nonneg (lowThr highThr ivh eff cap pow : ℚ)
    (s : BState) (p : ℚ) (h : 0 ≤ s.soc) :
    0 ≤ (batteryStep lowThr highThr ivh eff cap pow s p).soc := by
  rw [batteryStep_eq]
  dsimp only
  unfold socStep1
  have hc0 := chargeAmt_nonneg lowThr cap (pow * ivh) s.soc p
  have hmid0 : 0 ≤ s.soc + chargeAmt lowThr cap (pow * ivh) s.soc p := by linarith
  have hdle := disAmt_le_soc highThr (pow * ivh)
    (s.soc + chargeAmt lowThr cap (pow * ivh) s.soc p) p hmid0
  linarith

theorem batteryStep_preserves_energyAcct (lowThr highThr ivh eff cap pow : ℚ)
    (s : BState) (p : ℚ)
    (h : s.energyToGrid = eff * (s.energyFromGrid - s.soc) ∧ 0 ≤ s.soc) :
    (batteryStep lowThr highThr ivh eff cap pow s p).energyToGrid
        = eff * ((batteryStep lowThr highThr ivh eff cap pow s p).energyFromGrid
            - (batteryStep lowThr highThr ivh eff cap pow s p).soc)
      ∧ 0 ≤ (batteryStep lowThr highThr ivh eff cap pow s p).soc := by
  refine ⟨?_, batteryStep_preserves_soc_nonneg lowThr highThr ivh eff cap pow s p h.2⟩
  rw [batteryStep_eq]
  dsimp only
  unfold socStep1
  rw [h.1]
  ring

theorem socRun_cons (lowThr highThr cap maxIn maxOut p soc : ℚ) (ps : List ℚ) :
    socRun lowThr highThr cap maxIn maxOut (p :: ps) soc
      = socRun lowThr highThr cap maxIn maxOut ps
          (socStep1 lowThr highThr cap maxIn maxOut soc p) := rfl

theorem costRun_cons (lowThr highThr cap maxIn maxOut p soc : ℚ) (ps : List ℚ) :
    costRun lowThr highThr cap maxIn maxOut (p :: ps) soc
      = p * chargeAmt lowThr cap maxIn soc p
        + costRun lowThr highThr cap maxIn maxOut ps
            (socStep1 lowThr highThr cap maxIn maxOut soc p) := rfl

theorem revRun_cons (lowThr highThr cap maxIn maxOut p soc : ℚ) (ps : List ℚ) :
    revRun lowThr highThr cap maxIn maxOut (p :: ps) soc
      = p * disAmt highThr maxOut (soc + chargeAmt lowThr cap maxIn soc p) p
        + revRun lowThr highThr cap maxIn maxOut ps
            (socStep1 lowThr highThr cap maxIn maxOut soc p) := rfl

theorem batteryRun_decomp (lowThr highThr ivh eff cap pow : ℚ) :
    ∀ (ps : List ℚ) (s : BState),
      (ps.foldl (batteryStep lowThr highThr ivh eff cap pow) s).soc
          = socRun lowThr highThr cap (pow * ivh) (pow * ivh) ps s.soc
      ∧ (ps.foldl (batteryStep lowThr highThr ivh eff cap pow) s).cost
          = s.cost + costRun lowThr highThr cap (pow * ivh) (pow * ivh) ps s.soc
      ∧ (ps.foldl (batteryStep lowThr highThr ivh eff cap pow) s).revenue
          = s.revenue + eff * revRun lowThr highThr cap (pow * ivh) (pow * ivh) ps s.soc := by
  intro ps
  induction ps with
  | nil => intro s; simp [socRun, costRun, revRun]
  | cons p ps ihp =>
      intro s
      obtain ⟨h1, h2, h3⟩ := ihp (batteryStep lowThr highThr ivh eff cap pow s p)
      rw [batteryStep_eq] at h1 h2 h3
      dsimp only at h1 h2 h3
      refine ⟨?_, ?_, ?_⟩
      · rw [List.foldl_cons, batteryStep_eq, h1]
        rfl
      · rw [List.foldl_cons, batteryStep_eq, h2, costRun_cons]
        ring
      · rw [List.foldl_cons, batteryStep_eq, h3, revRun_cons]
        ring

theorem revRun_nonneg (lowThr highThr cap maxIn maxOut : ℚ) :
    ∀ (ps : List ℚ) (soc : ℚ), (∀ p ∈ ps, 0 ≤ p) →
      0 ≤ revRun lowThr highThr cap maxIn maxOut ps soc := by
  intro ps
  induction ps with
  | nil => intro soc _; simp [revRun]
  | cons p ps ihp =>
      intro soc hp
      unfold revRun
      have h1 : 0 ≤ p := hp p (by simp)
      have h2 := disAmt_nonneg highThr maxOut (soc + chargeAmt lowThr cap maxIn soc p) p
      have h3 := ihp (socStep1 lowThr highThr cap maxIn maxOut soc p)
        (fun q hq => hp q (by simp [hq]))
      have h4 : 0 ≤ p * disAmt highThr maxOut (soc + chargeAmt lowThr cap maxIn soc p) p :=
        mul_nonneg h1 h2
      linarith

theorem batteryBacktest_ok_elim (t : Table) (lowQuantile highQuantile eff cap pow : ℚ)
    (res : BatteryResult)
    (h : batteryBacktest t lowQuantile highQuantile eff cap pow = .ok res) :
    t.rows ≠ [] ∧ (0 < eff ∧ eff ≤ 1)
      ∧ (0 ≤ lowQuantile ∧ lowQuantile < highQuantile ∧ highQuantile ≤ 1)
      ∧ res = finalizeBattery (batteryThr t lowQuantile) (batteryThr t highQuantile)
          (batteryIntervalHours t)
          ((batteryPrices t).foldl
            (batteryStep (batteryThr t lowQuantile) (batteryThr t highQuantile)
              (batteryIntervalHours t) eff cap pow)
            initBState) := by
  unfold batteryBacktest at h
  split_ifs at h with h1 h2 h3
  all_goals first
    | exact Except.noConfusion h
    | exact ⟨by simpa using h1, h2, h3, (Except.ok.inj h).symm⟩

theorem chargePhase_soc_bounds (lowThr cap maxIn : ℚ) (s : BState) (p : ℚ)
    (h : 0 ≤ s.soc ∧ s.soc ≤ cap) :
    0 ≤ (chargePhase lowThr cap maxIn s p).soc
      ∧ (chargePhase lowThr cap maxIn s p).soc ≤ cap := by
  rw [chargePhase_eq]
  dsimp only
  have h1 := chargeAmt_nonneg lowThr cap maxIn s.soc p
  have h2 := chargeAmt_le_cap lowThr cap maxIn s.soc p h.2
  constructor
  · linarith [h.1]
  · exact h2

theorem dischargePhase_soc_bounds (highThr maxOut eff : ℚ) (s : BState) (p : ℚ)
    (h : 0 ≤ s.soc ∧ s.soc ≤ cap) :
    0 ≤ (dischargePhase highThr maxOut eff s p).soc
      ∧ (dischargePhase highThr maxOut eff s p).soc ≤ cap := by
  rw [dischargePhase_eq]
  dsimp only
  have h1 := disAmt_nonneg highThr maxOut s.soc p
  have h2 := disAmt_le_soc highThr maxOut s.soc p h.1
  constructor
  · linarith
  · linarith [h.2]

/-! ## Claim theorems -/

/-- C3: throughout every run of `battery_backtest`, the state of charge
stays within `[0, capacity]`: it starts at `0`, every state along the
per-row trajectory lies in the interval, and both the charge step and
the discharge step preserve the interval. -/
theorem soc_bounded_throughout (t : Table) (lowQ highQ eff cap pow : ℚ)
    (st s : BState) (p : ℚ) (hcap : 0 ≤ cap)
    (hst : st ∈ batteryTrajectory t lowQ highQ eff cap pow)
    (hs : 0 ≤ s.soc ∧ s.soc ≤ cap) :
    initBState.soc = 0
      ∧ (0 ≤ st.soc ∧ st.soc ≤ cap)
      ∧ (0 ≤ (chargePhase (batteryThr t lowQ) cap (pow * batteryIntervalHours t) s p).soc
          ∧ (chargePhase (batteryThr t lowQ) cap (pow * batteryIntervalHours t) s p).soc ≤ cap)
      ∧ (0 ≤ (dischargePhase (batteryThr t highQ) (pow * batteryIntervalHours t) eff s p).soc
          ∧ (dischargePhase (batteryThr t highQ) (pow * batteryIntervalHours t) eff s p).soc
              ≤ cap) := by
  refine ⟨rfl, ?_, chargePhase_soc_bounds _ _ _ _ _ hs, dischargePhase_soc_bounds _ _ _ _ _ hs⟩
  unfold batteryTrajectory at hst
  exact scanl_invariant _ (fun b => 0 ≤ b.soc ∧ b.soc ≤ cap)
    (fun b a hb => batteryStep_preserves_bounds _ _ _ _ _ _ b a hb)
    (batteryPrices t) initBState ⟨le_refl 0, hcap⟩ st hst

/-- C3 witness: the invariant at a concrete run. -/
theorem soc_bounded_throughout_witness :
    (0 : ℚ) ≤ 1
    ∧ initBState ∈ batteryTrajectory tableFourPrices (1/4) (3/4) (9/10) 1 1
    ∧ initBState.soc = 0 ∧ (0 ≤ initBState.soc ∧ initBState.soc ≤ 1) := by
  have h := soc_bounded_throughout tableFourPrices (1/4) (3/4) (9/10) 1 1
    initBState initBState 20 (by norm_num) (by decide) (by decide)
  exact ⟨by norm_num, by decide, h.1, h.2.1⟩

/-- C9: at every point of a `battery_backtest` run the accumulated
energy to grid equals `round_trip_efficiency` times (energy from grid
minus state of charge); in particular the returned
`energy_to_grid_mwh` never exceeds `round_trip_efficiency` times the
returned `energy_from_grid_mwh`. -/
theorem energy_accounting_invariant (t : Table) (lowQ highQ eff cap pow : ℚ)
    (st : BState) (res : BatteryResult)
    (hst : st ∈ batteryTrajectory t lowQ highQ eff cap pow)
    (hok : batteryBacktest t lowQ highQ eff cap pow = .ok res) :
    st.energyToGrid = eff * (st.energyFromGrid - st.soc)
      ∧ res.energyToGridMwh ≤ eff * res.energyFromGridMwh := by
  obtain ⟨hne, ⟨heff0, heff1⟩, hq, hres⟩ := batteryBacktest_ok_elim _ _ _ _ _ _ _ hok
  have hinit : initBState.energyToGrid
      = eff * (initBState.energyFromGrid - initBState.soc) ∧ 0 ≤ initBState.soc := by
    constructor
    · show (0 : ℚ) = eff * (0 - 0)
      ring
    · exact le_refl 0
  constructor
  · unfold batteryTrajectory at hst
    exact (scanl_invariant _
      (fun b => b.energyToGrid = eff * (b.energyFromGrid - b.soc) ∧ 0 ≤ b.soc)
      (fun b a hb => batteryStep_preserves_energyAcct _ _ _ _ _ _ b a hb)
      (batteryPrices t) initBState hinit st hst).1
  · have hfin := foldl_invariant
      (batteryStep (batteryThr t lowQ) (batteryThr t highQ) (batteryIntervalHours t) eff cap pow)
      (fun b => b.energyToGrid = eff * (b.energyFromGrid - b.soc) ∧ 0 ≤ b.soc)
      (fun b a hb => batteryStep_preserves_energyAcct _ _ _ _ _ _ b a hb)
      (batteryPrices t) initBState hinit
    rw [hres]
    unfold finalizeBattery
    dsimp only
    rw [hfin.1, mul_sub]
    have : 0 ≤ eff * ((batteryPrices t).foldl
        (batteryStep (batteryThr t lowQ) (batteryThr t highQ) (batteryIntervalHours t)
          eff cap pow) initBState).soc :=
      mul_nonneg (le_of_lt heff0) hfin.2
    linarith

/-- C9 witness: the invariant and the final inequality at a concrete
run. -/
theorem energy_accounting_invariant_witness :
    initBState ∈ batteryTrajectory tableFourPrices (1/4) (3/4) (9/10) 1 1
    ∧ batteryBacktest tableFourPrices (1/4) (3/4) (9/10) 1 1
        = .ok ⟨160, 1, 1, 1, 1, 9/10, 85/2, 125, 1⟩
    ∧ initBState.energyToGrid
        = (9/10 : ℚ) * (initBState.energyFromGrid - initBState.soc)
    ∧ ((9/10 : ℚ) ≤ (9/10 : ℚ) * 1) := by
  have h := energy_accounting_invariant tableFourPrices (1/4) (3/4) (9/10) 1 1
    initBState ⟨160, 1, 1, 1, 1, 9/10, 85/2, 125, 1⟩ (by decide) (by decide)
  exact ⟨by decide, by decide, h.1, h.2⟩

theorem chargePhase_eq_spec (lowThr cap maxIn : ℚ) (s : BState) (p : ℚ)
    (hmax : 0 < maxIn) :
    chargePhase lowThr cap maxIn s p = specChargeCheck lowThr cap maxIn s p := by
  unfold chargePhase specChargeCheck
  rcases Decidable.em (p ≤ lowThr ∧ s.soc < cap) with h1 | h1
  · rw [if_pos h1, if_pos h1, if_pos (lt_min hmax (by linarith [h1.2]))]
  · rw [if_neg h1, if_neg h1]

theorem dischargePhase_eq_spec (highThr maxOut eff : ℚ) (s : BState) (p : ℚ)
    (hmax : 0 < maxOut) :
    dischargePhase highThr maxOut eff s p = specDischargeCheck highThr maxOut eff s p := by
  unfold dischargePhase specDischargeCheck
  rcases Decidable.em (highThr ≤ p ∧ 0 < s.soc) with h1 | h1
  · rw [if_pos h1, if_pos h1, if_pos (lt_min hmax h1.2)]
  · rw [if_neg h1, if_neg h1]

/-- C1: for every non-empty table and valid configuration,
`battery_backtest` succeeds and is the fold of the per-row step, in
ascending-timestamp order, over the sorted price series; and the per-row
step is exactly the charge check of the specification followed by the
discharge check of the specification on the updated state (both checks
can fire on the same row, and each transfers
`min(power × interval_hours, room or stored energy)` with the stated
cost, revenue, energy and event-count updates, the efficiency applied on
discharge only). -/
theorem battery_step_semantics (t : Table) (lowQ highQ eff cap pow : ℚ)
    (s : BState) (p : ℚ)
    (hne : t.rows ≠ []) (heff : 0 < eff ∧ eff ≤ 1)
    (hquant : 0 ≤ lowQ ∧ lowQ < highQ ∧ highQ ≤ 1)
    (hcap : 0 < cap) (hpow : 0 < pow) :
    batteryBacktest t lowQ highQ eff cap pow
        = .ok (finalizeBattery (batteryThr t lowQ) (batteryThr t highQ)
            (batteryIntervalHours t)
            ((batteryPrices t).foldl
              (batteryStep (batteryThr t lowQ) (batteryThr t highQ)
                (batteryIntervalHours t) eff cap pow)
              initBState))
      ∧ (batterySortedRows t).Pairwise (fun a b => a.ts ≤ b.ts)
      ∧ batteryStep (batteryThr t lowQ) (batteryThr t highQ) (batteryIntervalHours t)
            eff cap pow s p
          = specDischargeCheck (batteryThr t highQ) (pow * batteryIntervalHours t) eff
              (specChargeCheck (batteryThr t lowQ) cap (pow * batteryIntervalHours t) s p) p := by
  have hivh : 0 < batteryIntervalHours t := by
    unfold batteryIntervalHours
    exact estimateIntervalHours_pos _
  have hmax : 0 < pow * batteryIntervalHours t := mul_pos hpow hivh
  refine ⟨?_, ?_, ?_⟩
  · unfold batteryBacktest
    rw [if_neg (by simpa using hne), if_neg (not_not_intro heff), if_neg (not_not_intro hquant)]
  · unfold batterySortedRows
    exact sorted_sortByKey CRow.ts t.rows
  · unfold batteryStep
    rw [chargePhase_eq_spec _ _ _ _ _ hmax, dischargePhase_eq_spec _ _ _ _ _ hmax]

/-- C1 witness: the semantics at a concrete table, state and price. -/
theorem battery_step_semantics_witness :
    tableFourPrices.rows ≠ []
    ∧ (0 < (9/10 : ℚ) ∧ (9/10 : ℚ) ≤ 1)
    ∧ (0 ≤ (1/4 : ℚ) ∧ (1/4 : ℚ) < 3/4 ∧ (3/4 : ℚ) ≤ 1)
    ∧ 0 < (1 : ℚ) ∧ 0 < (1 : ℚ)
    ∧ (batteryBacktest tableFourPrices (1/4) (3/4) (9/10) 1 1
        = .ok (finalizeBattery (batteryThr tableFourPrices (1/4))
            (batteryThr tableFourPrices (3/4)) (batteryIntervalHours tableFourPrices)
            ((batteryPrices tableFourPrices).foldl
              (batteryStep (batteryThr tableFourPrices (1/4))
                (batteryThr tableFourPrices (3/4))
                (batteryIntervalHours tableFourPrices) (9/10) 1 1)
              initBState))
      ∧ (batterySortedRows tableFourPrices).Pairwise (fun a b => a.ts ≤ b.ts)
      ∧ batteryStep (batteryThr tableFourPrices (1/4)) (batteryThr tableFourPrices (3/4))
            (batteryIntervalHours tableFourPrices) (9/10) 1 1 initBState 20
          = specDischargeCheck (batteryThr tableFourPrices (3/4))
              (1 * batteryIntervalHours tableFourPrices) (9/10)
              (specChargeCheck (batteryThr tableFourPrices (1/4)) 1
                (1 * batteryIntervalHours tableFourPrices) initBState 20) 20) :=
  ⟨by decide, by norm_num, by norm_num, by norm_num, by norm_num,
    battery_step_semantics tableFourPrices (1/4) (3/4) (9/10) 1 1 initBState 20
      (by decide) (by norm_num) (by norm_num) (by norm_num) (by norm_num)⟩

/-- C2 counterexample: with negative prices (legal NEM prices), raising
the round-trip efficiency from 1/2 to 1 strictly lowers the total
profit, because the extra delivered energy is sold at a negative price. -/
theorem efficiency_monotonicity_counterexample :
    ((1/2 : ℚ) ≤ 1)
    ∧ batteryBacktest tableNegativePrices (1/4) (3/4) (1/2) 1 1
        = .ok ⟨19/2, 1, 1, 1, 1, 1/2, -31/4, -13/4, 1⟩
    ∧ batteryBacktest tableNegativePrices (1/4) (3/4) 1 1 1
        = .ok ⟨9, 1, 1, 1, 1, 1, -31/4, -13/4, 1⟩
    ∧ profitOf (batteryBacktest tableNegativePrices (1/4) (3/4) 1 1 1)
        < profitOf (batteryBacktest tableNegativePrices (1/4) (3/4) (1/2) 1 1) := by
  decide

/-- C2 amended: when every price of the table is nonnegative, increasing
`round_trip_efficiency` while holding all else fixed never decreases the
total profit (the counterexample shows the unrestricted claim fails for
tables with negative prices). -/
theorem efficiency_monotonicity_nonneg_prices (t : Table) (lowQ highQ e1 e2 cap pow : ℚ)
    (r1 r2 : BatteryResult)
    (h1 : batteryBacktest t lowQ highQ e1 cap pow = .ok r1)
    (h2 : batteryBacktest t lowQ highQ e2 cap pow = .ok r2)
    (h12 : e1 ≤ e2) (hpos : ∀ r ∈ t.rows, 0 ≤ r.price) :
    r1.totalProfit ≤ r2.totalProfit := by
  obtain ⟨-, -, -, hr1⟩ := batteryBacktest_ok_elim _ _ _ _ _ _ _ h1
  obtain ⟨-, -, -, hr2⟩ := batteryBacktest_ok_elim _ _ _ _ _ _ _ h2
  obtain ⟨-, hc1, hv1⟩ := batteryRun_decomp (batteryThr t lowQ) (batteryThr t highQ)
    (batteryIntervalHours t) e1 cap pow (batteryPrices t) initBState
  obtain ⟨-, hc2, hv2⟩ := batteryRun_decomp (batteryThr t lowQ) (batteryThr t highQ)
    (batteryIntervalHours t) e2 cap pow (batteryPrices t) initBState
  have hR : 0 ≤ revRun (batteryThr t lowQ) (batteryThr t highQ) cap
      (pow * batteryIntervalHours t) (pow * batteryIntervalHours t)
      (batteryPrices t) initBState.soc := by
    apply revRun_nonneg
    intro p hp
    unfold batteryPrices at hp
    rcases List.mem_map.mp hp with ⟨r, hr, rfl⟩
    refine hpos r ?_
    have := (mem_sortByKey CRow.ts r t.rows).mp
    unfold batterySortedRows at hr
    exact this hr
  rw [hr1, hr2]
  unfold finalizeBattery
  dsimp only
  rw [hc1, hc2, hv1, hv2]
  have hmul := mul_le_mul_of_nonneg_right h12 hR
  linarith

/-- C2 amended witness: monotonicity at a concrete nonnegative-price
table and efficiencies 1/2 ≤ 9/10. -/
theorem efficiency_monotonicity_nonneg_prices_witness :
    batteryBacktest tableFourPrices (1/4) (3/4) (1/2) 1 1
        = .ok ⟨80, 1, 1, 1, 1, 1/2, 85/2, 125, 1⟩
    ∧ batteryBacktest tableFourPrices (1/4) (3/4) (9/10) 1 1
        = .ok ⟨160, 1, 1, 1, 1, 9/10, 85/2, 125, 1⟩
    ∧ ((1/2 : ℚ) ≤ 9/10)
    ∧ (∀ r ∈ tableFourPrices.rows, 0 ≤ r.price)
    ∧ ((80 : ℚ) ≤ 160) :=
  ⟨by decide, by decide, by norm_num, by decide,
    efficiency_monotonicity_nonneg_prices tableFourPrices (1/4) (3/4) (1/2) (9/10) 1 1
      ⟨80, 1, 1, 1, 1, 1/2, 85/2, 125, 1⟩ ⟨160, 1, 1, 1, 1, 9/10, 85/2, 125, 1⟩
      (by decide) (by decide) (by norm_num) (by decide)⟩

/-- C10: on an empty table, `detect_spikes` fails with the empty-dataset
error whatever the threshold and quantile arguments are — in particular
even when both criteria are absent, so the emptiness check precedes the
criterion validation. -/
theorem detect_spikes_empty_first (t : Table) (threshold quantile : Option ℚ)
    (h : t.rows = []) :
    detectSpikes t threshold quantile = .error .emptyData := by
  unfold detectSpikes
  rw [if_pos (by simp [h])]

/-- C10 witness: the empty table with both criteria absent. -/
theorem detect_spikes_empty_first_witness :
    tableEmpty.rows = [] ∧ detectSpikes tableEmpty none none = .error .emptyData :=
  ⟨rfl, detect_spikes_empty_first tableEmpty none none rfl⟩

/-- C5: column resolution checks an override for the role first — if one
exists it must be present verbatim among the headers, otherwise
resolution fails with an error naming the role and the missing override;
with no override the fixed ordered alias list is scanned
case-insensitively and the header matched by the first matching alias is
returned (not-found otherwise); and a source with header `RRP` and no
override resolves to the canonical price role. -/
theorem resolve_column_semantics (cols : List String) (target o : String)
    (ovs : Option (List (String × String))) :
    ((ovs.getD []).lookup target = some o → o ∈ cols →
        resolveColumn cols target ovs = .ok (some o))
    ∧ ((ovs.getD []).lookup target = some o → o ∉ cols →
        resolveColumn cols target ovs = .error (.overrideNotFound target o))
    ∧ ((ovs.getD []).lookup target = none →
        resolveColumn cols target ovs = .ok (specFirstAliasMatch cols (defaultAliases target)))
    ∧ resolveColumn ["SETTLEMENTDATE", "REGIONID", "RRP"] "price" none = .ok (some "RRP") := by
  refine ⟨?_, ?_, ?_, by decide⟩
  · intro hl hm
    unfold resolveColumn
    rw [hl]
    dsimp only
    rw [if_pos hm]
  · intro hl hm
    unfold resolveColumn
    rw [hl]
    dsimp only
    rw [if_neg hm]
  · intro hl
    unfold resolveColumn
    rw [hl]
    dsimp only
    rw [aliasScan_eq_spec]

/-- C5 witness: a present override wins over an alias, and a missing
override fails naming the role and the override. -/
theorem resolve_column_semantics_witness :
    ([("price", "MyPrice")].lookup "price" = some "MyPrice")
    ∧ resolveColumn ["MyPrice", "price"] "price" (some [("price", "MyPrice")])
        = .ok (some "MyPrice")
    ∧ resolveColumn ["a"] "price" (some [("price", "P")])
        = .error (.overrideNotFound "price" "P") :=
  ⟨rfl,
    (resolve_column_semantics ["MyPrice", "price"] "price" "MyPrice"
      (some [("price", "MyPrice")])).1 rfl (by decide),
    (resolve_column_semantics ["a"] "price" "P" (some [("price", "P")])).2.1 rfl (by decide)⟩

/-- C6 counterexample: with a threshold present, a blatantly invalid
quantile (5 ∉ [0,1]) raises no error — `detect_spikes` succeeds using
the threshold, so quantile validity is not checked whenever a quantile
is given. -/
theorem detect_spikes_quantile_not_validated :
    (¬((0 : ℚ) ≤ 5 ∧ (5 : ℚ) ≤ 1))
    ∧ detectSpikes tableSpiky (some 300) (some 5)
        = .ok ([⟨10800, "NSW1", 400, some 1500⟩],
            { cutoff := 300, spikeCount := 1, maxSpike := some 400, meanSpike := some 400 }) := by
  decide

/-- C6 amended: on a non-empty table, `detect_spikes` fails with the
missing-criterion error when both threshold and quantile are absent;
when the quantile criterion is decisive (threshold absent), a given
quantile must lie in [0,1] — failing with the invalid-quantile error
otherwise — and with a valid quantile the cutoff is the price value at
that quantile over the full table and the events are exactly the rows
with price ≥ cutoff in their original relative order.  (The
counterexample shows the validation does not apply when a threshold is
also given.) -/
theorem detect_spikes_criteria (t : Table) (threshold quantile : Option ℚ) (qv : ℚ)
    (hne : t.rows ≠ []) :
    (threshold = none → quantile = none →
        detectSpikes t threshold quantile = .error .missingCriterion)
    ∧ (threshold = none → quantile = some qv → ¬(0 ≤ qv ∧ qv ≤ 1) →
        detectSpikes t threshold quantile = .error .invalidQuantile)
    ∧ (threshold = none → quantile = some qv → (0 ≤ qv ∧ qv ≤ 1) →
        detectSpikes t threshold quantile
          = .ok (spikeEvents t (quantileQ (t.rows.map CRow.price) qv),
              spikeStatsOf t (quantileQ (t.rows.map CRow.price) qv))) := by
  have hemp : ¬(t.rows.isEmpty = true) := by simpa using hne
  refine ⟨?_, ?_, ?_⟩
  · rintro rfl rfl
    unfold detectSpikes
    rw [if_neg hemp, if_pos ⟨rfl, rfl⟩]
  · rintro rfl rfl hq
    unfold detectSpikes
    rw [if_neg hemp, if_neg (by simp)]
    dsimp only
    rw [if_pos hq]
  · rintro rfl rfl hq
    unfold detectSpikes
    rw [if_neg hemp, if_neg (by simp)]
    dsimp only
    rw [if_neg (not_not_intro hq)]

/-- C6 amended witness: the three criterion behaviours at concrete
inputs. -/
theorem detect_spikes_criteria_witness :
    tableSpiky.rows ≠ []
    ∧ detectSpikes tableSpiky none none = .error .missingCriterion
    ∧ detectSpikes tableSpiky none (some 2) = .error .invalidQuantile
    ∧ detectSpikes tableSpiky none (some (19/20))
        = .ok ([⟨10800, "NSW1", 400, some 1500⟩],
            { cutoff := 370, spikeCount := 1, maxSpike := some 400, meanSpike := some 400 }) := by
  have h := detect_spikes_criteria tableSpiky none none 0 (by decide)
  have h2 := detect_spikes_criteria tableSpiky none (some 2) 2 (by decide)
  have h3 := detect_spikes_criteria tableSpiky none (some (19/20)) (19/20) (by decide)
  refine ⟨by decide, h.1 rfl rfl, h2.2.1 rfl rfl (by norm_num), ?_⟩
  rw [h3.2.2 rfl rfl (by norm_num)]
  decide

/-- C8: `compute_summary` fails with the empty-table error on a zero-row
table; on a non-empty table it returns the count, mean, median, min and
max of price together with the population standard deviation — its
square times the count equals the sum of squared deviations from the
mean, i.e. the divisor is the count, not count − 1 — and the summary
includes `coeff_var = std/mean` exactly when the mean is nonzero; on a
single-row table the standard deviation is 0. -/
theorem compute_summary_fields (t tE : Table) (r : CRow) (s : Summary)
    (hE : tE.rows = []) (hok : computeSummary t = .ok s) :
    computeSummary tE = .error .emptyData
    ∧ s.count = ((t.rows.length : ℕ) : ℚ)
    ∧ s.meanPrice = meanQ (t.rows.map CRow.price)
    ∧ s.medianPrice = medianQ (t.rows.map CRow.price)
    ∧ s.minPrice = minQ (t.rows.map CRow.price)
    ∧ s.maxPrice = maxQ (t.rows.map CRow.price)
    ∧ s.stdSq * ((t.rows.length : ℕ) : ℚ)
        = ((t.rows.map CRow.price).map
            (fun x => (x - meanQ (t.rows.map CRow.price)) ^ 2)).sum
    ∧ ((coeffVar s).isSome ↔ s.meanPrice ≠ 0)
    ∧ (s.meanPrice ≠ 0 → coeffVar s = some (stdPrice s / (s.meanPrice : ℝ)))
    ∧ (t.rows = [r] → stdPrice s = 0) := by
  have hEr : computeSummary tE = .error .emptyData := by
    unfold computeSummary
    rw [if_pos (by simp [hE])]
  have hne : ¬(t.rows.isEmpty = true) := by
    intro hc
    unfold computeSummary at hok
    rw [if_pos hc] at hok
    exact Except.noConfusion hok
  have hlen : t.rows.length ≠ 0 := by
    intro hc
    exact hne (by simpa [List.isEmpty_iff, List.length_eq_zero] using hc)
  have hs : s = { count := ((t.rows.map CRow.price).length : ℚ)
                  meanPrice := meanQ (t.rows.map CRow.price)
                  medianPrice := medianQ (t.rows.map CRow.price)
                  minPrice := minQ (t.rows.map CRow.price)
                  maxPrice := maxQ (t.rows.map CRow.price)
                  stdSq := popVar (t.rows.map CRow.price)
                  meanDemand :=
                    if (if t.hasDemand then t.rows.filterMap CRow.demand else []).isEmpty
                    then none
                    else some (meanQ (if t.hasDemand then t.rows.filterMap CRow.demand else []))
                  maxDemand :=
                    if (if t.hasDemand then t.rows.filterMap CRow.demand else []).isEmpty
                    then none
                    else some (maxQ (if t.hasDemand then t.rows.filterMap CRow.demand else [])) } := by
    unfold computeSummary at hok
    rw [if_neg hne] at hok
    exact (Except.ok.inj hok).symm
  have hstd : s.stdSq = popVar (t.rows.map CRow.price) := by rw [hs]
  refine ⟨hEr, by rw [hs]; simp, by rw [hs], by rw [hs], by rw [hs], by rw [hs], ?_, ?_, ?_, ?_⟩
  · rw [hstd]
    unfold popVar
    rw [List.length_map]
    field_simp
  · unfold coeffVar
    split_ifs with h
    · simp [h]
    · simp [h]
  · intro h
    unfold coeffVar
    rw [if_neg h]
  · intro hone
    have : s.stdSq = 0 := by
      rw [hstd, hone]
      unfold popVar meanQ
      norm_num
    unfold stdPrice
    rw [this]
    simp

/-- C8 witness: a single-row table and the empty table. -/
theorem compute_summary_fields_witness :
    tableEmpty.rows = []
    ∧ computeSummary tableOneRow = .ok ⟨1, 50, 50, 50, 50, 0, none, none⟩
    ∧ computeSummary tableEmpty = .error .emptyData
    ∧ stdPrice ⟨1, 50, 50, 50, 50, 0, none, none⟩ = 0
    ∧ (coeffVar ⟨1, 50, 50, 50, 50, 0, none, none⟩).isSome := by
  have h := compute_summary_fields tableOneRow tableEmpty ⟨0, "VIC1", 50, none⟩
    ⟨1, 50, 50, 50, 50, 0, none, none⟩ rfl (by decide)
  exact ⟨rfl, by decide, h.1, h.2.2.2.2.2.2.2.2.2 rfl,
    (h.2.2.2.2.2.2.2.1).mpr (by norm_num)⟩

/-- C4 counterexample: a source whose timestamp values carry the fixed
offset +10:00, loaded with `timezone` unset, yields a table whose
timestamp series still carries that zone — the zone information is not
stripped. -/
theorem load_csv_timezone_unset_counterexample :
    loadCsv sourceAware ⟨none, none⟩
        = .ok ⟨some 36000, false,
            [⟨0, "VIC1", 50, none⟩, ⟨3600, "VIC1", 60, none⟩]⟩
    ∧ (some (36000 : ℤ) ≠ (none : Option ℤ)) := by
  decide

/-- C4 amended: when `options.timezone` is unset, `load_csv` leaves the
timestamps exactly as parsed — the zone of the returned series equals the
zone the source values parsed to (preserved, not stripped), so the
result is zone-naive only when the parsed values were. -/
theorem load_csv_timezone_unset_preserves_zone (src : RawSource) (opts : LoadOptions)
    (t : Table) (htz : opts.timezone = none) (hok : loadCsv src opts = .ok t) :
    t.tz = parsedSeriesTz src opts := by
  unfold loadCsv at hok
  by_cases hemp : src.rows.isEmpty = true
  · rw [if_pos hemp] at hok
    exact Except.noConfusion hok
  · rw [if_neg hemp] at hok
    cases hres : resolveRequired src opts with
    | error e =>
        rw [hres] at hok
        exact Except.noConfusion hok
    | ok tup =>
        obtain ⟨tsH, regH, prH⟩ := tup
        rw [hres] at hok
        dsimp only at hok
        cases hdem : resolveColumn src.headers "demand" opts.columnOverrides with
        | error e =>
            rw [hdem] at hok
            exact Except.noConfusion hok
        | ok demH =>
            rw [hdem] at hok
            dsimp only at hok
            rw [htz] at hok
            dsimp only [applyTimezone] at hok
            split_ifs at hok
            all_goals first
              | exact Except.noConfusion hok
              | · have ht := Except.ok.inj hok
                  rw [← ht]
                  unfold parsedSeriesTz
                  rw [hres]

/-- C4 amended witness: a zone-naive source with `timezone` unset loads
to a zone-naive table, equal to the zone it parsed to. -/
theorem load_csv_timezone_unset_preserves_zone_witness :
    (⟨none, none⟩ : LoadOptions).timezone = none
    ∧ loadCsv sourceNaive ⟨none, none⟩
        = .ok ⟨none, false, [⟨0, "VIC1", 50, none⟩, ⟨3600, "VIC1", 60, none⟩]⟩
    ∧ (⟨none, false, [⟨0, "VIC1", 50, none⟩, ⟨3600, "VIC1", 60, none⟩]⟩ : Table).tz
        = parsedSeriesTz sourceNaive ⟨none, none⟩ :=
  ⟨rfl, by decide,
    load_csv_timezone_unset_preserves_zone sourceNaive ⟨none, none⟩
      ⟨none, false, [⟨0, "VIC1", 50, none⟩, ⟨3600, "VIC1", 60, none⟩]⟩ rfl (by decide)⟩

/-- C7 counterexample: two sources that each normalize successfully but
disagree in zone-awareness (one aware, one naive, `timezone` unset) make
`load_csvs` fail — pandas raises a `TypeError` sorting the mixed
column — instead of returning the merged table the claim promises. -/
theorem load_csvs_mixed_timezones_counterexample :
    loadCsv sourceAware ⟨none, none⟩
        = .ok ⟨some 36000, false,
            [⟨0, "VIC1", 50, none⟩, ⟨3600, "VIC1", 60, none⟩]⟩
    ∧ loadCsv sourceNaive ⟨none, none⟩
        = .ok ⟨none, false, [⟨0, "VIC1", 50, none⟩, ⟨3600, "VIC1", 60, none⟩]⟩
    ∧ loadCsvs [sourceAware, sourceNaive] ⟨none, none⟩ true = .error .mixedTimezones := by
  decide

/-- C7 amended: for every non-empty list of sources that all normalize
successfully to tables agreeing in zone-awareness, `load_csvs` with
`drop_duplicates` concatenates the normalized tables in input-list
order, removes rows sharing an identical (timestamp, region) pair
keeping the first occurrence in concatenation order, and re-sorts the
final table ascending by timestamp (the merged series keeps the common
zone when all sources share one, and carries no single zone otherwise);
for an empty input list it fails with the no-sources error. -/
theorem load_csvs_merge_pipeline (sources : List RawSource) (opts : LoadOptions)
    (t0 : Table) (rest : List Table)
    (hok : sources.mapM (fun s => loadCsv s opts) = .ok (t0 :: rest))
    (htz : rest.all (fun tb => tb.tz.isSome = t0.tz.isSome) = true) :
    loadCsvs sources opts true
        = .ok ⟨if rest.all (fun tb => tb.tz = t0.tz) then t0.tz else none,
            (t0 :: rest).any Table.hasDemand,
            sortByKey CRow.ts (dedupFirst (((t0 :: rest).map Table.rows).flatten))⟩
      ∧ (sortByKey CRow.ts (dedupFirst (((t0 :: rest).map Table.rows).flatten))).Pairwise
          (fun a b => a.ts ≤ b.ts)
      ∧ (∀ (opts2 : LoadOptions) (dd : Bool), loadCsvs [] opts2 dd = .error .noSources) := by
  refine ⟨?_, sorted_sortByKey _ _, fun opts2 dd => rfl⟩
  have hne : ¬(sources.isEmpty = true) := by
    intro hc
    rw [List.isEmpty_iff] at hc
    subst hc
    simp only [List.mapM_nil] at hok
    exact List.noConfusion (Except.ok.inj hok)
  unfold loadCsvs
  rw [if_neg hne, hok]
  dsimp only
  rw [if_pos htz, if_pos rfl]

/-- C7 amended witness: two overlapping same-zone sources merge with
the duplicate (timestamp, region) pair dropped in favour of the
first-seen row and the result re-sorted by timestamp; and two zone-aware
sources with *different* fixed offsets still merge (sorted by instant,
no single series zone). -/
theorem load_csvs_merge_pipeline_witness :
    ([sourceNaive, sourceNaiveOverlap].mapM
        (fun s => loadCsv s (⟨none, some 0⟩ : LoadOptions))
      = .ok [⟨some 0, false, [⟨0, "VIC1", 50, none⟩, ⟨3600, "VIC1", 60, none⟩]⟩,
             ⟨some 0, false, [⟨3600, "VIC1", 99, none⟩, ⟨7200, "VIC1", 70, none⟩]⟩])
    ∧ loadCsvs [sourceNaive, sourceNaiveOverlap] ⟨none, some 0⟩ true
        = .ok ⟨some 0, false,
            [⟨0, "VIC1", 50, none⟩, ⟨3600, "VIC1", 60, none⟩, ⟨7200, "VIC1", 70, none⟩]⟩
    ∧ ([sourceAware, sourceAwareOther].mapM
        (fun s => loadCsv s (⟨none, none⟩ : LoadOptions))
      = .ok [⟨some 36000, false, [⟨0, "VIC1", 50, none⟩, ⟨3600, "VIC1", 60, none⟩]⟩,
             ⟨some 18000, false, [⟨7200, "VIC1", 70, none⟩]⟩])
    ∧ loadCsvs [sourceAware, sourceAwareOther] ⟨none, none⟩ true
        = .ok ⟨none, false,
            [⟨0, "VIC1", 50, none⟩, ⟨3600, "VIC1", 60, none⟩, ⟨7200, "VIC1", 70, none⟩]⟩ := by
  refine ⟨by decide, ?_, by decide, ?_⟩
  · have h := (load_csvs_merge_pipeline [sourceNaive, sourceNaiveOverlap] ⟨none, some 0⟩
      ⟨some 0, false, [⟨0, "VIC1", 50, none⟩, ⟨3600, "VIC1", 60, none⟩]⟩
      [⟨some 0, false, [⟨3600, "VIC1", 99, none⟩, ⟨7200, "VIC1", 70, none⟩]⟩]
      (by decide) (by decide)).1
    rw [h]
    decide
  · have h := (load_csvs_merge_pipeline [sourceAware, sourceAwareOther] ⟨none, none⟩
      ⟨some 36000, false, [⟨0, "VIC1", 50, none⟩, ⟨3600, "VIC1", 60, none⟩]⟩
      [⟨some 18000, false, [⟨7200, "VIC1", 70, none⟩]⟩]
      (by decide) (by decide)).1
    rw [h]
    decide

end
